/-
Verification of the chunking + retrieval pipeline of the ThinkBook /
NotebookLM-clone repository.

Shallow embedding of:
  * src/core/chunker.py        (chunk_text)
  * src/core/vector_store.py   (VectorStore.search, empty-index behavior)
  * src/features/chat.py       (build_rag_messages, SYSTEM_PROMPT)
  * src/core/storage_manager.py (get_notebook_dir, get_chroma_db_dir)

Python machine strings are modeled as Lean String; Python ints as Int
(or Nat where the analyzed inputs are non-negative); Python lists as
List.  External collaborators (the sentence-transformer embedder and the
chromadb collection) are modeled as explicit function parameters, so
theorems quantify over their possible behaviors.
-/
import Mathlib

set_option linter.unusedVariables false

/-! ## Chunker: src/core/chunker.py

`chunk_text` splits on whitespace (`text.split()`), then slides a window
of `chunk_size` words in steps of `chunk_size - overlap`, joining each
window with a single space and keeping it only when `chunk.strip()` is
truthy. -/

/-- Model of Python `str.split()` (no separator): scan characters,
emitting maximal runs of non-whitespace characters; `cur` is the current
run, reversed. -/
def splitAuxW : List Char → List Char → List String
  | [], cur => if cur = [] then [] else [String.mk cur.reverse]
  | c :: rest, cur =>
    if c.isWhitespace then
      (if cur = [] then [] else [String.mk cur.reverse]) ++ splitAuxW rest []
    else
      splitAuxW rest (c :: cur)

/-- Python `text.split()`: the list of whitespace-separated words of
`text` (empty pieces discarded). -/
def pySplit (text : String) : List String :=
  splitAuxW text.toList []

/-- `hasContent w` is true iff `w` contains a non-whitespace character,
i.e. iff Python `w.strip()` is truthy. -/
def hasContent (w : String) : Bool :=
  w.toList.any (fun c => !c.isWhitespace)

/-- The Python guard `if chunk.strip():` where `chunk` is
`" ".join(slice)`: the joined string strips to something nonempty iff
some word of the slice contains a non-whitespace character (the
separator `" "` itself is whitespace). -/
def sliceKeep (slice : List String) : Bool :=
  slice.any hasContent

/-- The `while start < len(words)` loop of `chunk_text`, for the guarded
regime where all indices stay non-negative (0 <= overlap, and the fuel
below suffices whenever `overlap < chunk_size`; see `chunkGo_spec`).
One unit of fuel is spent per loop iteration.
Loop body: `chunk = " ".join(words[start:start+chunk_size])`;
`if chunk.strip(): chunks.append(chunk)`;
`start += chunk_size - overlap`. -/
def chunkGo (words : List String) (cs ov : Nat) : Nat → Nat → List String
  | 0, _ => []
  | fuel + 1, start =>
    if start < words.length then
      (if sliceKeep ((words.drop start).take cs) then
        [" ".intercalate ((words.drop start).take cs)]
      else [])
        ++ chunkGo words cs ov fuel (start + (cs - ov))
    else []

/-- `chunk_text(text, chunk_size, overlap)` from src/core/chunker.py,
for `overlap < chunk_size` (the regime in which the Python loop
terminates; `words.length + 1` units of fuel are then enough, since each
iteration advances `start` by at least one). -/
def chunk_text (text : String) (chunk_size overlap : Nat) : List String :=
  chunkGo (pySplit text) chunk_size overlap ((pySplit text).length + 1) 0

/-- The window of words joined by the `j`-th chunk:
`words[j*(chunk_size-overlap) : j*(chunk_size-overlap)+chunk_size]`. -/
def sliceAt (text : String) (cs ov j : Nat) : List String :=
  ((pySplit text).drop (j * (cs - ov))).take cs

/-! ### The unguarded loop, for arbitrary Python ints

`chunk_text` performs `start += chunk_size - overlap` with Python
integers; when the step is non-positive the loop never ends.  To reason
about termination we model the loop with explicit fuel, one unit per
iteration, returning `none` exactly when `fuel` iterations did not reach
the loop exit.  Python list slicing is modeled by `pySlice`. -/

/-- Resolve a Python slice endpoint against a list of length `n`:
negative indices count from the end (clipped at 0), positive ones are
clipped at `n`. -/
def pyIdx (n : Nat) (i : Int) : Nat :=
  if i < 0 then ((n : Int) + i).toNat else min i.toNat n

/-- Python `l[a:b]` for arbitrary integer endpoints. -/
def pySlice (l : List String) (a b : Int) : List String :=
  (l.take (pyIdx l.length b)).drop (pyIdx l.length a)

/-- The `while start < len(words)` loop of `chunk_text` for arbitrary
integer `chunk_size` and `overlap`; `chunks` is the accumulator list.
`some chunks` means the loop exited normally within `fuel` iterations;
`none` means `fuel` iterations were not enough. -/
def chunkLoop (words : List String) (cs ov : Int) : Nat → Int → List String → Option (List String)
  | 0, _, _ => none
  | fuel + 1, start, chunks =>
    if start < (words.length : Int) then
      chunkLoop words cs ov fuel (start + (cs - ov))
        (if sliceKeep (pySlice words start (start + cs)) then
          chunks ++ [" ".intercalate (pySlice words start (start + cs))]
        else chunks)
    else some chunks

/-! ## Vector store: src/core/vector_store.py

`VectorStore.search` (lines 42-69).  The stored state is the chromadb
collection's records, in insertion order; each record is
`(text, source, embedding)`.  The two external calls are modeled as
function parameters: `embed_query` (core/embedder.py, may fail) and
`collection_query` (the chromadb `collection.query` call with
`n_results=top_k`, may fail).  The `include_metadata=True` result shape
`[{"text": ..., "source": ...}]` is the one modeled (the one chat.py
consumes). -/

/-- `VectorStore.search`:
`if self.collection.count() == 0: return []` — then embed the query —
then query the collection.  `records` is the collection's content,
`top_k` is passed through to the collection query unchanged. -/
def VectorStore.search {V E : Type} (records : List (String × String × V))
    (embed_query : String → Except E V)
    (collection_query : List (String × String × V) → V → Nat → Except E (List (String × String)))
    (query : String) (top_k : Nat) : Except E (List (String × String)) :=
  if records.length = 0 then
    Except.ok []
  else
    match embed_query query with
    | Except.error e => Except.error e
    | Except.ok q_emb => collection_query records q_emb top_k

/-! ## RAG prompt assembly: src/features/chat.py -/

/-- The fixed system instruction `SYSTEM_PROMPT` of src/features/chat.py. -/
def SYSTEM_PROMPT : String :=
  "You are ThinkBook AI, an intelligent assistant that answers questions \nbased on the documents the user has uploaded. \n\nRules:\n- Always ground your answers in the provided context chunks.\n- If the answer isn\x27t in the context, say so honestly.\n- Be conversational, clear, and helpful.\n- You can reference previous conversation turns.\n- Format responses with markdown when helpful.\n- Be thorough but concise."

/-- A chat message `{"role": ..., "content": ...}`. -/
structure Msg where
  role : String
  content : String
deriving DecidableEq, Repr

/-- `build_rag_messages(query, vector_store, history, top_k)` after the
retrieval call: `results` is the value returned by
`vector_store.search(query, top_k=top_k, include_metadata=True)`, a list
of `(text, source)` pairs in rank order. -/
def build_rag_messages (query : String) (results : List (String × String))
    (history : List Msg) : List Msg :=
  let context_blocks := results.enum.map
    (fun p => "[Source " ++ toString (p.1 + 1) ++ ": " ++ p.2.2 ++ "]\n" ++ p.2.1)
  let context :=
    if context_blocks.isEmpty then "No relevant context found."
    else String.intercalate "\n\n---\n\n" context_blocks
  let messages := [Msg.mk "system" SYSTEM_PROMPT]
    ++ (history.drop (history.length - 10)).map (fun t => Msg.mk t.role t.content)
  let user_message :=
    "Context from documents:\n---\n" ++ context ++ "\n---\n\nUser question: " ++ query
  messages ++ [Msg.mk "user" user_message]

/-! ### Spec-side model of the assembler (for the refinement claim C7)

Written independently from the words of spec §4.3: number the blocks
from 1 in rank order, join with the fixed separator or substitute the
placeholder when there are zero results, prepend the system instruction,
append the last 10 history turns oldest-first, then one user message
holding the formatted context followed by the literal query text. -/

/-- Spec §4.3: labeled block `"[Source i: <source>]\n<text>"`, numbering
from `i`. -/
def specSourceBlocks : Nat → List (String × String) → List String
  | _, [] => []
  | i, (t, s) :: rest =>
    ("[Source " ++ toString i ++ ": " ++ s ++ "]\n" ++ t) :: specSourceBlocks (i + 1) rest

/-- Spec §4.3: blocks joined with the fixed separator, or the literal
placeholder when there are zero results. -/
def specContext (results : List (String × String)) : String :=
  if results = [] then "No relevant context found."
  else String.intercalate "\n\n---\n\n" (specSourceBlocks 1 results)

/-- Spec §4.3: system instruction, then the last 10 history turns
oldest-first, then exactly one user-role message containing the
formatted context followed by the literal query text. -/
def specMessages (query : String) (results : List (String × String))
    (history : List Msg) : List Msg :=
  Msg.mk "system" SYSTEM_PROMPT
    :: (history.drop (history.length - 10)
        ++ [Msg.mk "user"
             ("Context from documents:\n---\n" ++ specContext results
               ++ "\n---\n\nUser question: " ++ query)])

/-! ## Storage layout: src/core/storage_manager.py -/

/-- `os.path.join(a, b)` for POSIX paths: an absolute second component
replaces the first; otherwise the components are joined with exactly one
`/`.  (`b.toList.head? = some '/'` is Python `b.startswith('/')`;
`a.toList.getLast? = some '/'` is `a.endswith('/')`.) -/
def osPathJoin (a b : String) : String :=
  if b.toList.head? = some '/' then b
  else if a = "" then b
  else if a.toList.getLast? = some '/' then a ++ b
  else a ++ "/" ++ b

/-- `DATA_ROOT = os.environ.get("DATA_ROOT", "./data")`: fixed at module
load; modeled at its default value (the environment override is a
per-process constant, not mutable state). -/
def DATA_ROOT : String := "./data"

/-- `USERS_DIR = os.path.join(DATA_ROOT, "users")`. -/
def USERS_DIR : String := osPathJoin DATA_ROOT "users"

/-- `_get_user_dir(hf_user_id)`. -/
def get_user_dir (hf_user_id : String) : String :=
  osPathJoin USERS_DIR hf_user_id

/-- `get_notebook_dir(hf_user_id, notebook_id)`:
`os.path.join(_get_user_dir(hf_user_id), "notebooks", notebook_id)`
(the three-argument `os.path.join` is the left fold of the two-argument
one). -/
def get_notebook_dir (hf_user_id notebook_id : String) : String :=
  osPathJoin (osPathJoin (get_user_dir hf_user_id) "notebooks") notebook_id

/-- `get_notebook_subdir(hf_user_id, notebook_id, subname)` (the
`os.makedirs` side effect is irrelevant to the computed location). -/
def get_notebook_subdir (hf_user_id notebook_id subname : String) : String :=
  osPathJoin (get_notebook_dir hf_user_id notebook_id) subname

/-- `get_chroma_db_dir(hf_user_id, notebook_id)`. -/
def get_chroma_db_dir (hf_user_id notebook_id : String) : String :=
  get_notebook_subdir hf_user_id notebook_id "chroma"

/-- `q` equals `p` or lies strictly inside the directory `p` (its path
extends `p` past a `/` boundary). -/
def pathInside (q p : String) : Bool :=
  List.isPrefixOf ((p ++ "/").toList) q.toList

/-- Two storage locations overlap when one equals or lies inside the
other. -/
def pathsOverlap (p q : String) : Bool :=
  (p == q) || pathInside p q || pathInside q p

/-- An identifier that names a single path component: nonempty and free
of the path separator. -/
def cleanId (s : String) : Bool :=
  (!(s == "")) && !(s.toList.contains '/')

/-! # Lemmas and claim theorems -/

/-! ## Chunker lemmas -/

lemma mk_reverse_content (cur : List Char) (hne : cur ≠ [])
    (hcur : ∀ c ∈ cur, c.isWhitespace = false) :
    hasContent (String.mk cur.reverse) = true := by
  obtain ⟨c, rest, rfl⟩ := List.exists_cons_of_ne_nil hne
  show ((c :: rest).reverse).any (fun c => !c.isWhitespace) = true
  rw [List.any_eq_true]
  refine ⟨c, ?_, ?_⟩
  · rw [List.mem_reverse]; exact List.mem_cons_self c rest
  · rw [hcur c (List.mem_cons_self c rest)]; rfl

/-- Every word produced by the splitter contains a non-whitespace
character (the invariant carries the same fact for the current run). -/
lemma splitAuxW_good : ∀ (cs : List Char) (cur : List Char),
    (∀ c ∈ cur, c.isWhitespace = false) →
    ∀ w ∈ splitAuxW cs cur, hasContent w = true := by
  intro cs
  induction cs with
  | nil =>
    intro cur hcur w hw
    by_cases hc : cur = []
    · simp [splitAuxW, hc] at hw
    · simp only [splitAuxW, if_neg hc, List.mem_singleton] at hw
      subst hw
      exact mk_reverse_content cur hc hcur
  | cons c rest ih =>
    intro cur hcur w hw
    simp only [splitAuxW] at hw
    by_cases hws : c.isWhitespace = true
    · rw [if_pos hws, List.mem_append] at hw
      rcases hw with h1 | h2
      · by_cases hc : cur = []
        · simp [hc] at h1
        · rw [if_neg hc, List.mem_singleton] at h1
          subst h1
          exact mk_reverse_content cur hc hcur
      · exact ih [] (by intro x hx; cases hx) w h2
    · rw [if_neg hws] at hw
      refine ih (c :: cur) ?_ w hw
      intro x hx
      rcases List.mem_cons.mp hx with h | h
      · subst h; exact Bool.not_eq_true _ ▸ (Bool.eq_false_iff.mpr hws)
      · exact hcur x h

/-- Every word of `pySplit text` contains a non-whitespace character. -/
lemma pySplit_good (text : String) : ∀ w ∈ pySplit text, hasContent w = true :=
  splitAuxW_good text.toList [] (by intro c hc; cases hc)

/-- Ceiling-division recurrence used to count loop iterations:
`ceil(R / s) = ceil((R - s) / s) + 1` for `R >= 1`, `s >= 1` (with
truncated Nat subtraction). -/
lemma ceil_div_step (R s : Nat) (hR : 1 ≤ R) (hs : 1 ≤ s) :
    (R + s - 1) / s = (R - s + s - 1) / s + 1 := by
  have l1 : R + s - 1 = (R - 1) + s := by omega
  rw [l1, Nat.add_div_right _ hs]
  by_cases hRs : s ≤ R
  · have l2 : R - s + s - 1 = R - 1 := by omega
    rw [l2]
  · have l2 : R - s + s - 1 = s - 1 := by omega
    rw [l2, Nat.div_eq_of_lt (by omega), Nat.div_eq_of_lt (by omega)]

/-- When the loop guard holds, the current window is nonempty and made of
real words, so the `chunk.strip()` check keeps it. -/
lemma sliceKeep_of_lt (words : List String) (cs start : Nat)
    (hgood : ∀ w ∈ words, hasContent w = true)
    (hcs : 0 < cs) (hlt : start < words.length) :
    sliceKeep ((words.drop start).take cs) = true := by
  have hd : words.drop start ≠ [] := by
    intro hnil
    have := List.drop_eq_nil_iff.mp hnil
    omega
  obtain ⟨w, rest, hwr⟩ := List.exists_cons_of_ne_nil hd
  have hw : w ∈ words := List.mem_of_mem_drop (hwr ▸ List.mem_cons_self w rest)
  rw [hwr]
  cases cs with
  | zero => omega
  | succ m =>
    rw [List.take_succ_cons]
    show ((w :: rest.take m).any hasContent) = true
    rw [List.any_cons, hgood w hw, Bool.true_or]

/-- Characterization of the chunking loop: starting at `start` with at
least `words.length - start` units of fuel, the loop emits one chunk per
window, `ceil((words.length - start) / (cs - ov))` of them in total, the
`j`-th being the join of `words[start + j*(cs-ov) :][:cs]`. -/
lemma chunkGo_spec (words : List String) (cs ov : Nat) (hcs : ov < cs)
    (hgood : ∀ w ∈ words, hasContent w = true) :
    ∀ fuel start, words.length - start ≤ fuel →
      chunkGo words cs ov fuel start =
        (List.range ((words.length - start + (cs - ov) - 1) / (cs - ov))).map
          (fun j => " ".intercalate ((words.drop (start + j * (cs - ov))).take cs)) := by
  intro fuel
  induction fuel with
  | zero =>
    intro start h
    have h0 : words.length - start = 0 := by omega
    rw [h0, Nat.div_eq_of_lt (by omega)]
    rfl
  | succ f ih =>
    intro start h
    by_cases hlt : start < words.length
    · have hs : 0 < cs - ov := by omega
      have hkeep := sliceKeep_of_lt words cs start hgood (by omega) hlt
      rw [chunkGo, if_pos hlt, hkeep, if_pos rfl, List.singleton_append]
      rw [ih (start + (cs - ov)) (by omega)]
      have hsub : words.length - (start + (cs - ov)) = words.length - start - (cs - ov) := by
        omega
      rw [hsub, ceil_div_step (words.length - start) (cs - ov) (by omega) hs]
      rw [List.range_succ_eq_map, List.map_cons, List.map_map]
      congr 1
      · simp only [Nat.zero_mul, Nat.add_zero]
      · refine List.map_congr_left ?_
        intro j hj
        simp only [Function.comp_apply]
        have harith : start + (cs - ov) + j * (cs - ov) = start + Nat.succ j * (cs - ov) := by
          rw [Nat.succ_mul]
          generalize j * (cs - ov) = a
          omega
        rw [harith]
    · have h0 : words.length - start = 0 := by omega
      rw [chunkGo, if_neg hlt, h0, Nat.div_eq_of_lt (by omega)]
      rfl

/-- `chunk_text` in closed form, for `overlap < chunk_size`. -/
lemma chunk_text_eq (text : String) (cs ov : Nat) (hcs : ov < cs) :
    chunk_text text cs ov =
      (List.range (((pySplit text).length + (cs - ov) - 1) / (cs - ov))).map
        (fun j => " ".intercalate (((pySplit text).drop (j * (cs - ov))).take cs)) := by
  unfold chunk_text
  rw [chunkGo_spec (pySplit text) cs ov hcs (pySplit_good text)
    ((pySplit text).length + 1) 0 (by omega)]
  simp only [Nat.sub_zero, Nat.zero_add]

/-! ## C1 — chunk count (corrected)

The code produces `ceil(N / (chunk_size - overlap))` chunks on `N`
words, not `ceil((N - overlap) / (chunk_size - overlap))`, and a text
with `450 < N <= 500` words yields 2 chunks, not 1 (the closed-form
theorem below; the counterexample instantiates N = 451). -/

/-- C1 (amended): with `chunk_size = 500, overlap = 50`, `chunk_text`
on a text of `N` whitespace-separated words produces exactly
`ceil(N / 450)` chunks (for every `N`, including `N = 0`); in
particular exactly one chunk iff `0 < N <= 450`, and for `N > 500` the
count is `ceil(N / 450)`, not `ceil((N - 50) / 450)`. -/
theorem c1_chunk_count (text : String) :
    (chunk_text text 500 50).length = ((pySplit text).length + 449) / 450 := by
  rw [chunk_text_eq text 500 50 (by omega)]
  rw [List.length_map, List.length_range]
  norm_num

/-- C1 (counterexample to the claim as stated): a text of 451 words —
which satisfies `0 < N <= chunk_size = 500`, so the claim demands
exactly one chunk — is split into 2 chunks by the code. -/
theorem c1_counterexample :
    0 < (pySplit (" ".intercalate (List.replicate 451 "w"))).length ∧
    (pySplit (" ".intercalate (List.replicate 451 "w"))).length ≤ 500 ∧
    (chunk_text (" ".intercalate (List.replicate 451 "w")) 500 50).length ≠ 1 := by
  set_option maxRecDepth 100000 in decide

/-! ## C2 — termination (code bug)

The spec requires the precondition `overlap < chunk_size` to be guarded
explicitly (reject or clamp) so that the loop always terminates.  The
code has no such guard: with `overlap >= chunk_size` the step
`chunk_size - overlap` is non-positive, `start` never advances past
`len(words)`, and on any nonempty word list the loop never exits.  The
lemmas settle both regimes of the fuel-indexed loop `chunkLoop`; the
claim theorem exhibits divergence at the concrete failing input
`chunk_text("a b", chunk_size=2, overlap=2)`. -/

/-- With `overlap < chunk_size` the loop does terminate:
`words.length - start` iterations are always enough. -/
lemma chunkLoop_isSome (words : List String) (cs ov : Int) (hcs : ov < cs) :
    ∀ fuel, ∀ start : Int, ∀ acc, ((words.length : Int) - start).toNat < fuel →
      (chunkLoop words cs ov fuel start acc).isSome = true := by
  intro fuel
  induction fuel with
  | zero => intro start acc h; omega
  | succ f ih =>
    intro start acc h
    rw [chunkLoop]
    by_cases hlt : start < (words.length : Int)
    · rw [if_pos hlt]
      apply ih
      omega
    · rw [if_neg hlt]
      rfl

/-- With `chunk_size <= overlap` and a nonempty word list, no amount of
fuel reaches the loop exit: `start` never increases, so the guard
`start < len(words)` holds forever. -/
lemma chunkLoop_none_of_nonpos (words : List String) (cs ov : Int) (hcs : cs ≤ ov)
    (hne : words ≠ []) :
    ∀ fuel, ∀ start : Int, ∀ acc, start ≤ 0 → chunkLoop words cs ov fuel start acc = none := by
  intro fuel
  induction fuel with
  | zero => intro start acc h; rfl
  | succ f ih =>
    intro start acc hstart
    have hlen : 0 < words.length := List.length_pos.mpr hne
    have hlt : start < (words.length : Int) := by
      have h2 : (0 : Int) < (words.length : Int) := by exact_mod_cast hlen
      omega
    rw [chunkLoop, if_pos hlt]
    apply ih
    omega

/-- C2 (divergence at the failing input): `chunk_text("a b",
chunk_size=2, overlap=2)` never leaves its loop — no iteration budget
makes the loop return. -/
theorem c2_no_guard_nontermination :
    ¬ ∃ res, ∃ fuel, chunkLoop ["a", "b"] 2 2 fuel 0 [] = some res := by
  rintro ⟨res, fuel, h⟩
  rw [chunkLoop_none_of_nonpos ["a", "b"] 2 2 (le_refl 2) (by simp) fuel 0 [] (le_refl 0)] at h
  cases h

/-! ## C6 / C10 shared getter lemma -/

/-- The `j`-th chunk is the space-join of the `j`-th window. -/
lemma chunk_text_getElem (text : String) (cs ov j : Nat) (hcs : ov < cs)
    (hj : j < (chunk_text text cs ov).length) :
    (chunk_text text cs ov)[j]? = some (" ".intercalate (sliceAt text cs ov j)) := by
  rw [chunk_text_eq text cs ov hcs] at hj ⊢
  rw [List.length_map, List.length_range] at hj
  rw [List.getElem?_map, List.getElem?_range hj]
  rfl

/-- Dropping the first `cs - ov` positions of a `cs`-window starting at
`a` is the `ov`-window starting at `a + (cs - ov)`. -/
lemma slice_overlap_eq (l : List String) (cs ov a : Nat) (hov : ov ≤ cs) :
    ((l.drop a).take cs).drop (cs - ov) = (l.drop (a + (cs - ov))).take ov := by
  rw [List.drop_take, List.drop_drop]
  congr 1
  omega

/-! ## C6 — chunk overlap property (confirmed)

For `0 < overlap < chunk_size`, adjacent full-length chunks share their
boundary words: the last `overlap` words of chunk `i` are the first
`overlap` words of chunk `i+1`.  Chunks are space-joins of their word
windows (`sliceAt`), so the property is stated on the windows, tied to
the program's output by the two `getElem?` conjuncts. -/

/-- C6: chunks `i` and `i+1` are the joins of their windows, and (for
full windows of `chunk_size` words) the last `overlap` words of window
`i` equal the first `overlap` words of window `i+1`. -/
theorem c6_overlap_property (text : String) (cs ov i : Nat)
    (hov : 0 < ov) (hcs : ov < cs)
    (hi : i + 1 < (chunk_text text cs ov).length)
    (hf1 : (sliceAt text cs ov i).length = cs)
    (hf2 : (sliceAt text cs ov (i + 1)).length = cs) :
    (chunk_text text cs ov)[i]? = some (" ".intercalate (sliceAt text cs ov i)) ∧
    (chunk_text text cs ov)[i + 1]? = some (" ".intercalate (sliceAt text cs ov (i + 1))) ∧
    (sliceAt text cs ov i).drop (cs - ov) = (sliceAt text cs ov (i + 1)).take ov := by
  refine ⟨chunk_text_getElem text cs ov i hcs (by omega),
    chunk_text_getElem text cs ov (i + 1) hcs hi, ?_⟩
  show (((pySplit text).drop (i * (cs - ov))).take cs).drop (cs - ov)
    = (((pySplit text).drop ((i + 1) * (cs - ov))).take cs).take ov
  rw [slice_overlap_eq _ cs ov _ (le_of_lt hcs), List.take_take]
  have hmin : ov ⊓ cs = ov := min_eq_left (le_of_lt hcs)
  rw [hmin]
  congr 2
  rw [Nat.succ_mul]

/-- C6 witness: text `"a b c"`, `chunk_size = 2`, `overlap = 1`,
adjacent full chunks `"a b"` and `"b c"` share the word `"b"`. -/
theorem c6_overlap_property_witness :
    (chunk_text "a b c" 2 1)[0]? = some (" ".intercalate (sliceAt "a b c" 2 1 0)) ∧
    (chunk_text "a b c" 2 1)[0 + 1]? = some (" ".intercalate (sliceAt "a b c" 2 1 (0 + 1))) ∧
    (sliceAt "a b c" 2 1 0).drop (2 - 1) = (sliceAt "a b c" 2 1 (0 + 1)).take 1 :=
  c6_overlap_property "a b c" 2 1 0 (by decide) (by decide) (by decide) (by decide) (by decide)

/-! ## C10 — no word dropped (confirmed)

For `overlap < chunk_size`, chunk `j` is exactly the space-join of
`words[j*(chunk_size-overlap) : j*(chunk_size-overlap)+chunk_size]`
(clipped at the end of input), and every word of the input lies in at
least one window, namely window `k / (chunk_size - overlap)` for the
word at index `k`. -/

/-- C10: every chunk is the join of its window, and every input word
belongs to the window of some emitted chunk. -/
theorem c10_coverage (text : String) (cs ov : Nat) (hcs : ov < cs) :
    (∀ j, j < (chunk_text text cs ov).length →
      (chunk_text text cs ov)[j]? = some (" ".intercalate (sliceAt text cs ov j))) ∧
    (∀ k, k < (pySplit text).length →
      ∃ j, j < (chunk_text text cs ov).length ∧
        ∀ w, (pySplit text)[k]? = some w → w ∈ sliceAt text cs ov j) := by
  constructor
  · intro j hj
    exact chunk_text_getElem text cs ov j hcs hj
  · intro k hk
    have hs : 0 < cs - ov := by omega
    refine ⟨k / (cs - ov), ?_, ?_⟩
    · have hlen : (chunk_text text cs ov).length
          = ((pySplit text).length + (cs - ov) - 1) / (cs - ov) := by
        rw [chunk_text_eq text cs ov hcs, List.length_map, List.length_range]
      rw [hlen]
      have h1 : (pySplit text).length + (cs - ov) - 1
          = ((pySplit text).length - 1) + (cs - ov) := by omega
      rw [h1, Nat.add_div_right _ hs]
      have h2 : k / (cs - ov) ≤ ((pySplit text).length - 1) / (cs - ov) :=
        Nat.div_le_div_right (by omega)
      omega
    · intro w hw
      have hdm := Nat.div_add_mod k (cs - ov)
      have hml := Nat.mod_lt k hs
      have hcomm : (k / (cs - ov)) * (cs - ov) = (cs - ov) * (k / (cs - ov)) :=
        Nat.mul_comm _ _
      have hle : (k / (cs - ov)) * (cs - ov) ≤ k := by omega
      have hlt2 : k - (k / (cs - ov)) * (cs - ov) < cs := by omega
      have e1 : (((pySplit text).drop ((k / (cs - ov)) * (cs - ov))).take cs)[k - (k / (cs - ov)) * (cs - ov)]?
          = some w := by
        rw [List.getElem?_take_of_lt hlt2, List.getElem?_drop]
        have : (k / (cs - ov)) * (cs - ov) + (k - (k / (cs - ov)) * (cs - ov)) = k := by omega
        rw [this]
        exact hw
      obtain ⟨hlt3, hget⟩ := List.getElem?_eq_some.mp e1
      exact hget ▸ List.getElem_mem hlt3

/-- C10 witness: text `"a b c"`, `chunk_size = 2`, `overlap = 1`: chunk
0 joins window `["a","b"]`, and the word at index 2 (`"c"`) lies in the
window of some emitted chunk. -/
theorem c10_coverage_witness :
    (chunk_text "a b c" 2 1)[0]? = some (" ".intercalate (sliceAt "a b c" 2 1 0)) ∧
    ∃ j, j < (chunk_text "a b c" 2 1).length ∧
      ∀ w, (pySplit "a b c")[2]? = some w → w ∈ sliceAt "a b c" 2 1 j :=
  ⟨(c10_coverage "a b c" 2 1 (by decide)).1 0 (by decide),
   (c10_coverage "a b c" 2 1 (by decide)).2 2 (by decide)⟩

/-! ## C4 — empty-index search returns empty, never an error (confirmed)

`VectorStore.search` checks `self.collection.count() == 0` first and
returns `[]` before touching the embedder or the collection query, so
no behavior of either collaborator can make an empty-index search
fail. -/

/-- C4: on an index holding zero records, `search` returns the empty
result for every query, every `top_k`, and every possible behavior
(including failure) of the embedder and of the collection query. -/
theorem c4_empty_index_search {V E : Type} (embed_query : String → Except E V)
    (collection_query : List (String × String × V) → V → Nat → Except E (List (String × String)))
    (query : String) (top_k : Nat) :
    VectorStore.search [] embed_query collection_query query top_k = Except.ok [] := rfl

/-! ## C9 — empty-index search never invokes the embedder (confirmed)

The `return []` on count zero precedes `embed_query(query)` in the
source, so even an embedder that always fails cannot make an
empty-index search raise. -/

/-- C9: with an embedding capability that fails on every input, `search`
on an index holding zero records still returns the empty result
successfully — the embedder is never consulted. -/
theorem c9_empty_index_skips_embedder {V E : Type} (e : E)
    (collection_query : List (String × String × V) → V → Nat → Except E (List (String × String)))
    (query : String) (top_k : Nat) :
    VectorStore.search [] (fun _ => Except.error e) collection_query query top_k
      = Except.ok [] := rfl

/-! ## C7 — prompt assembly (confirmed, refinement)

`build_rag_messages` (transcribed from src/features/chat.py) equals the
independently written spec-side assembler `specMessages`: system
instruction first, then the last 10 history turns oldest-first, then
exactly one user message made of the rank-ordered source blocks
(numbered from 1) joined by the fixed separator — or the literal
placeholder when retrieval produced nothing — followed by the literal
query text. -/

/-- The enumerated block construction of chat.py equals the spec-side
1-based block numbering. -/
lemma specSourceBlocks_eq (rs : List (String × String)) : ∀ n,
    (List.enumFrom n rs).map
      (fun p => "[Source " ++ toString (p.1 + 1) ++ ": " ++ p.2.2 ++ "]\n" ++ p.2.1)
      = specSourceBlocks (n + 1) rs := by
  induction rs with
  | nil => intro n; rfl
  | cons x xs ih =>
    intro n
    obtain ⟨t, s⟩ := x
    rw [List.enumFrom_cons, List.map_cons, ih (n + 1)]
    rfl

/-- C7: the message sequence built by `build_rag_messages` is exactly
the spec-side sequence `specMessages`. -/
theorem c7_message_assembly (query : String) (results : List (String × String))
    (history : List Msg) :
    build_rag_messages query results history = specMessages query results history := by
  have henum : results.enum = List.enumFrom 0 results := rfl
  have heta : (fun t : Msg => Msg.mk t.role t.content) = fun t => t := rfl
  simp only [build_rag_messages, specMessages, henum, heta, List.map_id']
  rw [specSourceBlocks_eq results 0]
  cases results with
  | nil => simp [specContext, specSourceBlocks]
  | cons x xs =>
    obtain ⟨t, s⟩ := x
    simp [specContext, specSourceBlocks]

/-! ## C8 — storage isolation (corrected)

`get_notebook_dir` joins raw identifiers into the path with no
sanitization, so a `notebook_id` containing `/` can nest one notebook's
storage inside another's (counterexample below).  For identifiers that
are single path components — nonempty and free of `/` — distinct
`(userId, notebookId)` pairs always map to non-overlapping locations,
and the mapping is a pure function of the two identifiers (the model is
a function; `DATA_ROOT` is a per-process constant). -/

lemma toList_append (a b : String) : (a ++ b).toList = a.toList ++ b.toList :=
  String.data_append a b

lemma toList_inj {a b : String} (h : a.toList = b.toList) : a = b :=
  String.ext h

lemma head?_ne_slash {s : String} (h : '/' ∉ s.toList) : ¬ s.toList.head? = some '/' := by
  intro hh
  cases hs : s.toList with
  | nil => rw [hs] at hh; cases hh
  | cons c cs =>
    rw [hs] at hh
    injection hh with hc
    apply h
    rw [hs, hc]
    exact List.mem_cons_self _ _

lemma mem_of_getLast? {l : List Char} {c : Char} (h : l.getLast? = some c) : c ∈ l := by
  have h2 : l.reverse.head? = some c := by rw [List.head?_reverse]; exact h
  have h3 : c ∈ l.reverse := by
    cases hl : l.reverse with
    | nil => rw [hl] at h2; cases h2
    | cons x xs =>
      rw [hl] at h2
      injection h2 with hx
      rw [hx]
      exact List.mem_cons_self _ _
  simpa using h3

lemma getLast?_ne_slash {s : String} (h : '/' ∉ s.toList) :
    ¬ s.toList.getLast? = some '/' :=
  fun hh => h (mem_of_getLast? hh)

lemma ne_empty_of_toList {s : String} {l : List Char} (hs : s.toList = l) (hl : l ≠ []) :
    s ≠ "" := by
  intro he
  rw [he] at hs
  exact hl hs.symm

/-- The generic non-degenerate case of `os.path.join`. -/
lemma osPathJoin_eq (a b : String) (ha : a ≠ "")
    (hal : ¬ a.toList.getLast? = some '/') (hb : ¬ b.toList.head? = some '/') :
    osPathJoin a b = a ++ "/" ++ b := by
  unfold osPathJoin
  rw [if_neg hb, if_neg ha, if_neg hal]

/-- Normal form of `_get_user_dir` for a separator-free user id. -/
lemma get_user_dir_toList {u : String} (hu : '/' ∉ u.toList) :
    (get_user_dir u).toList = "./data/users/".toList ++ u.toList := by
  have hU : USERS_DIR = "./data/users" := rfl
  unfold get_user_dir
  rw [hU, osPathJoin_eq "./data/users" u (by decide) (by decide) (head?_ne_slash hu)]
  rw [toList_append, toList_append]
  rfl

lemma toList_ne_nil {s : String} (h : s ≠ "") : s.toList ≠ [] := by
  intro hl
  exact h (toList_inj (by rw [hl]; rfl))

/-- A list ending in a nonempty separator-free string does not end in
`/`. -/
lemma getLast?_append_ne_slash {s : String} {pre : List Char} (hs0 : s ≠ "")
    (hs : '/' ∉ s.toList) : ¬ (pre ++ s.toList).getLast? = some '/' := by
  intro hh
  rw [List.getLast?_append] at hh
  cases hul : s.toList.getLast? with
  | none => exact toList_ne_nil hs0 (List.getLast?_eq_none_iff.mp hul)
  | some c =>
    rw [hul] at hh
    rw [show (some c).or pre.getLast? = some c from rfl] at hh
    injection hh with hc
    exact hs (hc ▸ mem_of_getLast? hul)

/-- Normal form of `get_notebook_dir` for separator-free ids. -/
lemma get_notebook_dir_toList {u n : String} (hu0 : u ≠ "") (hu : '/' ∉ u.toList)
    (hn : '/' ∉ n.toList) :
    (get_notebook_dir u n).toList
      = "./data/users/".toList ++ (u.toList ++ ('/' :: ("notebooks/".toList ++ n.toList))) := by
  have hud := get_user_dir_toList hu
  have hune : get_user_dir u ≠ "" := ne_empty_of_toList hud (by
    intro hnil
    exact absurd (List.append_eq_nil.mp hnil).1 (by decide))
  have hulast : ¬ (get_user_dir u).toList.getLast? = some '/' := by
    rw [hud]
    exact getLast?_append_ne_slash hu0 hu
  unfold get_notebook_dir
  rw [osPathJoin_eq (get_user_dir u) "notebooks" hune hulast (by decide)]
  have hmid : (get_user_dir u ++ "/" ++ "notebooks").toList
      = "./data/users/".toList ++ (u.toList ++ ('/' :: "notebooks".toList)) := by
    rw [toList_append, toList_append, hud]
    rw [show ("/" : String).toList = ['/'] from by decide]
    simp [List.append_assoc]
  have hmidne : (get_user_dir u ++ "/" ++ "notebooks") ≠ "" :=
    ne_empty_of_toList hmid (by
      intro hnil
      exact absurd (List.append_eq_nil.mp hnil).1 (by decide))
  have hmidlast : ¬ (get_user_dir u ++ "/" ++ "notebooks").toList.getLast? = some '/' := by
    intro hh
    rw [hmid, List.getLast?_append, List.getLast?_append] at hh
    rw [show ('/' :: "notebooks".toList).getLast? = some 's' from by decide] at hh
    simp [Option.or] at hh
  rw [osPathJoin_eq _ n hmidne hmidlast (head?_ne_slash hn)]
  rw [toList_append, toList_append, hmid]
  rw [show ("/" : String).toList = ['/'] from by decide]
  rw [show ("notebooks/" : String).toList = "notebooks".toList ++ ['/'] from by decide]
  simp [List.append_assoc]

/-- Normal form of `get_chroma_db_dir` for separator-free ids. -/
lemma get_chroma_db_dir_toList {u n : String} (hu0 : u ≠ "") (hu : '/' ∉ u.toList)
    (hn0 : n ≠ "") (hn : '/' ∉ n.toList) :
    (get_chroma_db_dir u n).toList
      = "./data/users/".toList ++ (u.toList ++ ('/' :: ("notebooks/".toList
          ++ (n.toList ++ ('/' :: "chroma".toList))))) := by
  have hnb := get_notebook_dir_toList hu0 hu hn
  have hnbne : get_notebook_dir u n ≠ "" := ne_empty_of_toList hnb (by
    intro hnil
    exact absurd (List.append_eq_nil.mp hnil).1 (by decide))
  have hshape : "./data/users/".toList ++ (u.toList ++ ('/' :: ("notebooks/".toList ++ n.toList)))
      = ("./data/users/".toList ++ (u.toList ++ ('/' :: "notebooks/".toList))) ++ n.toList := by
    simp [List.append_assoc]
  have hnblast : ¬ (get_notebook_dir u n).toList.getLast? = some '/' := by
    rw [hnb, hshape]
    exact getLast?_append_ne_slash hn0 hn
  unfold get_chroma_db_dir get_notebook_subdir
  rw [osPathJoin_eq _ "chroma" hnbne hnblast (by decide)]
  rw [toList_append, toList_append, hnb]
  rw [show ("/" : String).toList = ['/'] from by decide]
  simp [List.append_assoc]

/-- Token separation: a `/`-delimited first component of a prefix must
match the corresponding component of the target. -/
lemma sep_prefix {a1 a2 t1 t2 : List Char} (h1 : '/' ∉ a1) (h2 : '/' ∉ a2)
    (hp : a1 ++ '/' :: t1 <+: a2 ++ '/' :: t2) : a1 = a2 ∧ t1 <+: t2 := by
  induction a1 generalizing a2 with
  | nil =>
    cases a2 with
    | nil =>
      simp only [List.nil_append] at hp
      rw [List.cons_prefix_cons] at hp
      exact ⟨rfl, hp.2⟩
    | cons d a2t =>
      simp only [List.nil_append, List.cons_append] at hp
      rw [List.cons_prefix_cons] at hp
      exact absurd (hp.1 ▸ List.mem_cons_self d a2t) h2
  | cons c a1t ih =>
    cases a2 with
    | nil =>
      simp only [List.cons_append, List.nil_append] at hp
      rw [List.cons_prefix_cons] at hp
      exact absurd (hp.1 ▸ List.mem_cons_self c a1t) h1
    | cons d a2t =>
      simp only [List.cons_append] at hp
      rw [List.cons_prefix_cons] at hp
      obtain ⟨hcd, hp2⟩ := hp
      have h1t : '/' ∉ a1t := fun hm => h1 (List.mem_cons_of_mem _ hm)
      have h2t : '/' ∉ a2t := fun hm => h2 (List.mem_cons_of_mem _ hm)
      obtain ⟨ha, ht⟩ := ih h1t h2t hp2
      exact ⟨by rw [hcd, ha], ht⟩

/-- Equality version of the token separation. -/
lemma sep_eq {a1 a2 t1 t2 : List Char} (h1 : '/' ∉ a1) (h2 : '/' ∉ a2)
    (he : a1 ++ '/' :: t1 = a2 ++ '/' :: t2) : a1 = a2 ∧ t1 = t2 := by
  have hp : a1 ++ '/' :: t1 <+: a2 ++ '/' :: t2 := he ▸ List.prefix_refl _
  obtain ⟨ha, _⟩ := sep_prefix h1 h2 hp
  subst ha
  have ht := List.append_cancel_left he
  injection ht with hh ht2
  exact ⟨rfl, ht2⟩

/-- Reduce `pathsOverlap p q = false` to the three Prop disequalities. -/
lemma pathsOverlap_eq_false {p q : String} (h1 : p ≠ q)
    (h2 : ¬ ((q ++ "/").toList <+: p.toList)) (h3 : ¬ ((p ++ "/").toList <+: q.toList)) :
    pathsOverlap p q = false := by
  unfold pathsOverlap pathInside
  rw [Bool.or_eq_false_iff, Bool.or_eq_false_iff]
  refine ⟨⟨beq_eq_false_iff_ne.mpr h1, ?_⟩, ?_⟩
  · rw [Bool.eq_false_iff]
    intro hT
    exact h2 (List.isPrefixOf_iff_prefix.mp hT)
  · rw [Bool.eq_false_iff]
    intro hT
    exact h3 (List.isPrefixOf_iff_prefix.mp hT)

lemma cleanId_spec {s : String} (h : cleanId s = true) : s ≠ "" ∧ '/' ∉ s.toList := by
  unfold cleanId at h
  rw [Bool.and_eq_true] at h
  obtain ⟨h1, h2⟩ := h
  constructor
  · intro he
    rw [he] at h1
    simp at h1
  · intro hm
    rw [Bool.not_eq_true'] at h2
    have h3 : s.toList.contains '/' = true := List.elem_eq_true_of_mem hm
    rw [h3] at h2
    cases h2

/-- Distinct clean id pairs give distinct notebook directories. -/
lemma nbdir_inj {u1 n1 u2 n2 : String} (hu10 : u1 ≠ "") (hu1 : '/' ∉ u1.toList)
    (hn1 : '/' ∉ n1.toList) (hu20 : u2 ≠ "") (hu2 : '/' ∉ u2.toList) (hn2 : '/' ∉ n2.toList)
    (he : get_notebook_dir u1 n1 = get_notebook_dir u2 n2) : u1 = u2 ∧ n1 = n2 := by
  have e := congrArg String.toList he
  rw [get_notebook_dir_toList hu10 hu1 hn1, get_notebook_dir_toList hu20 hu2 hn2] at e
  have e2 := List.append_cancel_left e
  obtain ⟨hu, ht⟩ := sep_eq hu1 hu2 e2
  have hn := List.append_cancel_left ht
  exact ⟨toList_inj hu, toList_inj hn⟩

/-- A notebook directory for clean ids never lies inside another one. -/
lemma nbdir_not_inside {u1 n1 u2 n2 : String} (hu10 : u1 ≠ "") (hu1 : '/' ∉ u1.toList)
    (hn1 : '/' ∉ n1.toList) (hu20 : u2 ≠ "") (hu2 : '/' ∉ u2.toList) (hn2 : '/' ∉ n2.toList) :
    ¬ ((get_notebook_dir u2 n2 ++ "/").toList <+: (get_notebook_dir u1 n1).toList) := by
  intro hp
  rw [toList_append, get_notebook_dir_toList hu20 hu2 hn2,
    get_notebook_dir_toList hu10 hu1 hn1,
    show ("/" : String).toList = ['/'] from by decide] at hp
  have hsh : ("./data/users/".toList ++ (u2.toList ++ ('/' :: ("notebooks/".toList ++ n2.toList)))) ++ ['/']
      = "./data/users/".toList ++ (u2.toList ++ ('/' :: ("notebooks/".toList ++ (n2.toList ++ ['/'])))) := by
    simp [List.append_assoc]
  rw [hsh, List.prefix_append_right_inj] at hp
  obtain ⟨hu, ht⟩ := sep_prefix hu2 hu1 hp
  rw [List.prefix_append_right_inj] at ht
  obtain ⟨t, htt⟩ := ht
  apply hn1
  rw [← htt]
  simp

/-- Distinct clean id pairs give distinct chroma directories. -/
lemma chromadir_inj {u1 n1 u2 n2 : String} (hu10 : u1 ≠ "") (hu1 : '/' ∉ u1.toList)
    (hn10 : n1 ≠ "") (hn1 : '/' ∉ n1.toList) (hu20 : u2 ≠ "") (hu2 : '/' ∉ u2.toList)
    (hn20 : n2 ≠ "") (hn2 : '/' ∉ n2.toList)
    (he : get_chroma_db_dir u1 n1 = get_chroma_db_dir u2 n2) : u1 = u2 ∧ n1 = n2 := by
  have e := congrArg String.toList he
  rw [get_chroma_db_dir_toList hu10 hu1 hn10 hn1,
    get_chroma_db_dir_toList hu20 hu2 hn20 hn2] at e
  have e2 := List.append_cancel_left e
  obtain ⟨hu, ht⟩ := sep_eq hu1 hu2 e2
  have hn := List.append_cancel_left ht
  obtain ⟨hn', _⟩ := sep_eq hn1 hn2 hn
  exact ⟨toList_inj hu, toList_inj hn'⟩

/-- A chroma directory for clean ids never lies inside another one. -/
lemma chromadir_not_inside {u1 n1 u2 n2 : String} (hu10 : u1 ≠ "") (hu1 : '/' ∉ u1.toList)
    (hn10 : n1 ≠ "") (hn1 : '/' ∉ n1.toList) (hu20 : u2 ≠ "") (hu2 : '/' ∉ u2.toList)
    (hn20 : n2 ≠ "") (hn2 : '/' ∉ n2.toList) :
    ¬ ((get_chroma_db_dir u2 n2 ++ "/").toList <+: (get_chroma_db_dir u1 n1).toList) := by
  intro hp
  rw [toList_append, get_chroma_db_dir_toList hu20 hu2 hn20 hn2,
    get_chroma_db_dir_toList hu10 hu1 hn10 hn1,
    show ("/" : String).toList = ['/'] from by decide] at hp
  have hsh : ("./data/users/".toList ++ (u2.toList ++ ('/' :: ("notebooks/".toList
        ++ (n2.toList ++ ('/' :: "chroma".toList)))))) ++ ['/']
      = "./data/users/".toList ++ (u2.toList ++ ('/' :: ("notebooks/".toList
        ++ (n2.toList ++ ('/' :: ("chroma".toList ++ ['/'])))))) := by
    simp [List.append_assoc]
  rw [hsh, List.prefix_append_right_inj] at hp
  obtain ⟨hu, ht⟩ := sep_prefix hu2 hu1 hp
  rw [List.prefix_append_right_inj] at ht
  obtain ⟨hn, ht2⟩ := sep_prefix hn2 hn1 ht
  have hlen := ht2.length_le
  simp at hlen

/-- C8 (counterexample to the claim as stated): the pairs `("u", "n")`
and `("u", "n/sub")` are distinct, yet the second notebook's storage
location lies strictly inside the first's — the raw ids are joined into
the path with no sanitization. -/
theorem c8_counterexample :
    (("u", "n") ≠ (("u", "n/sub") : String × String)) ∧
    pathsOverlap (get_notebook_dir "u" "n") (get_notebook_dir "u" "n/sub") = true := by
  decide

/-- C8 (amended): for identifiers that are single path components
(nonempty, no `/`), distinct `(userId, notebookId)` pairs map to
non-overlapping notebook directories and non-overlapping chroma
directories; the mapping itself is a pure function of the two ids. -/
theorem c8_isolation (u1 n1 u2 n2 : String)
    (hc1 : cleanId u1 = true) (hc2 : cleanId n1 = true)
    (hc3 : cleanId u2 = true) (hc4 : cleanId n2 = true)
    (hne : (u1, n1) ≠ (u2, n2)) :
    pathsOverlap (get_notebook_dir u1 n1) (get_notebook_dir u2 n2) = false ∧
    pathsOverlap (get_chroma_db_dir u1 n1) (get_chroma_db_dir u2 n2) = false := by
  obtain ⟨hu10, hu1⟩ := cleanId_spec hc1
  obtain ⟨hn10, hn1⟩ := cleanId_spec hc2
  obtain ⟨hu20, hu2⟩ := cleanId_spec hc3
  obtain ⟨hn20, hn2⟩ := cleanId_spec hc4
  have hnepair : ¬ (u1 = u2 ∧ n1 = n2) := by
    intro hab
    exact hne (by rw [hab.1, hab.2])
  constructor
  · apply pathsOverlap_eq_false
    · intro he
      exact hnepair (nbdir_inj hu10 hu1 hn1 hu20 hu2 hn2 he)
    · exact nbdir_not_inside hu10 hu1 hn1 hu20 hu2 hn2
    · exact nbdir_not_inside hu20 hu2 hn2 hu10 hu1 hn1
  · apply pathsOverlap_eq_false
    · intro he
      exact hnepair (chromadir_inj hu10 hu1 hn10 hn1 hu20 hu2 hn20 hn2 he)
    · exact chromadir_not_inside hu10 hu1 hn10 hn1 hu20 hu2 hn20 hn2
    · exact chromadir_not_inside hu20 hu2 hn20 hn2 hu10 hu1 hn10 hn1

/-- C8 witness: two notebooks of the same user with clean distinct ids
have non-overlapping notebook and chroma directories. -/
theorem c8_isolation_witness :
    pathsOverlap (get_notebook_dir "alice" "nb1") (get_notebook_dir "alice" "nb2") = false ∧
    pathsOverlap (get_chroma_db_dir "alice" "nb1") (get_chroma_db_dir "alice" "nb2") = false :=
  c8_isolation "alice" "nb1" "alice" "nb2" (by decide) (by decide) (by decide) (by decide)
    (by decide)
